import Mathlib

/-!
Verification development for the DNS resolution core of clashplus
(`dns/util.go`): TTL policy, response cache, proxy/interface dialer,
race resolver and cache-key derivation, shallowly embedded in Lean.
-/

set_option maxHeartbeats 1000000

namespace ClashDns

/-- 2^32, the modulus of Go `uint32` arithmetic. -/
def u32 : Nat := 4294967296

/-- A resource record, as far as this core inspects it: `Header().Ttl`
(a `uint32`, modelled as `Nat` taken `< u32`) plus opaque record data. -/
structure RR where
  ttl : Nat
  rdata : String
deriving DecidableEq, Repr

/-- A decoded DNS message: the return code and the three record sections.
All other fields are opaque to this core. -/
structure Msg where
  rcode : Nat
  answer : List RR
  ns : List RR
  extra : List RR
deriving DecidableEq, Repr

/-- `D.RcodeServerFailure` from the message library. -/
def rcodeServerFailure : Nat := 2

/-- `D.RcodeRefused` from the message library. -/
def rcodeRefused : Nat := 5

/-- `lo.Clamp(value, min, max)` from samber/lo: checks the lower bound
first, then the upper bound. -/
def clamp (value lo hi : Nat) : Nat :=
  if value < lo then lo
  else if value > hi then hi
  else value

/-- `minTTL(records)` (`dns/util.go:71`): `lo.MinBy` over the records
comparing `Header().Ttl` with `<`; the nil result of an empty list makes
`minTTL` return `0`. -/
def minTTL (records : List RR) : Nat :=
  match records with
  | [] => 0
  | r :: rs => (rs.foldl (fun acc x => if x.ttl < acc.ttl then x else acc) r).ttl

/-- `setTTL(records, ttl, force)` (`dns/util.go:57`).  With `force` every
TTL is overwritten with `ttl`; otherwise `delta := minTTL(records) - ttl`
(uint32 arithmetic, hence the explicit `% u32`) is subtracted from every
record's TTL, clamped by `lo.Clamp(ttl-delta, 1, ttl)`.  The Go code
mutates in place; the model returns the rewritten list. -/
def setTTL (records : List RR) (ttl : Nat) (force : Bool) : List RR :=
  if force then
    records.map (fun r => { r with ttl := ttl })
  else
    let delta := (minTTL records + u32 - ttl % u32) % u32
    records.map (fun r => { r with ttl := clamp ((r.ttl + u32 - delta) % u32) 1 r.ttl })

/-- `setMsgTTLWithForce(msg, ttl, force)` (`dns/util.go:51`): applies
`setTTL` to the answer, authority and additional sections. -/
def setMsgTTLWithForce (msg : Msg) (ttl : Nat) (force : Bool) : Msg :=
  { msg with
    answer := setTTL msg.answer ttl force
    ns := setTTL msg.ns ttl force
    extra := setTTL msg.extra ttl force }

/-- `setMsgTTL(msg, ttl)` (`dns/util.go:43`): forced rewrite. -/
def setMsgTTL (msg : Msg) (ttl : Nat) : Msg :=
  setMsgTTLWithForce msg ttl true

/-- `setMsgMaxTTL(msg, ttl)` (`dns/util.go:47`): decaying rewrite. -/
def setMsgMaxTTL (msg : Msg) (ttl : Nat) : Msg :=
  setMsgTTLWithForce msg ttl false

/-- A DNS question: `(Name, Qtype, Qclass)`. -/
structure Question where
  name : String
  qtype : Nat
  qclass : Nat
deriving DecidableEq, Repr

/-- `genMsgCacheKey(ctx, q)` (`dns/util.go:261`): the request context is
modelled by the `Option String` the external `resolver.GetProxy` would
yield.  When a proxy is present and non-empty the key is
`"<proxy>:<name>:<qtype>:<qclass>"`, otherwise `"<name>:<qtype>:<qclass>"`
(`fmt.Sprintf` with `%s`/`%d`). -/
def genMsgCacheKey (proxyCtx : Option String) (q : Question) : String :=
  match proxyCtx with
  | some proxy =>
      if proxy ≠ "" then
        proxy ++ ":" ++ q.name ++ ":" ++ toString q.qtype ++ ":" ++ toString q.qclass
      else
        q.name ++ ":" ++ toString q.qtype ++ ":" ++ toString q.qclass
  | none => q.name ++ ":" ++ toString q.qtype ++ ":" ++ toString q.qclass

/-- The key shape the specification asserts for a present proxy selector:
`"<proxy>:<name>:<qtype>:<qclass>"`.  Stated from the spec's words, to be
compared with `genMsgCacheKey`. -/
def specProxyKeyForm (proxy : String) (q : Question) : String :=
  proxy ++ ":" ++ q.name ++ ":" ++ toString q.qtype ++ ":" ++ toString q.qclass

/-- The key shape the specification asserts for an absent proxy selector:
`"<name>:<qtype>:<qclass>"`. -/
def specNoProxyKeyForm (q : Question) : String :=
  q.name ++ ":" ++ toString q.qtype ++ ":" ++ toString q.qclass

/-- A Go `error` value as this core builds them: a plain message
(`errors.New` / `fmt.Errorf` without `%w`), a wrapping error
(`fmt.Errorf` with a message and `%w`), or a join (`errors.Join`). -/
inductive GoError where
  | str (msg : String)
  | wrap (msg : String) (inner : GoError)
  | joined (left right : GoError)
deriving DecidableEq, Repr

/-- `e` mentions `sub`: `sub` occurs in the error tree of `e` (it is
reachable through wrapping or joining, so its message appears when the
aggregate is rendered). -/
def GoError.mentions : GoError → GoError → Bool
  | .str m, sub => GoError.str m == sub
  | .wrap m inner, sub => GoError.wrap m inner == sub || inner.mentions sub
  | .joined l r, sub => GoError.joined l r == sub || l.mentions sub || r.mentions sub

/-- One completed exchange attempt of the race, in completion order: the
`(*D.Msg, error)` pair that `r.ExchangeContext(ctx, m)` produced, i.e.
either a message or a transport error. -/
abbrev Attempt : Type := Except GoError Msg

/-- The closure `batchExchange` hands to `fast.Go` (`dns/util.go:238`):
a transport error is forwarded; a message whose `Rcode` is
SERVER-FAILURE or REFUSED is turned into the error `"server failure"`;
any other message is returned as a success. -/
def raceAttempt (res : Attempt) : Except GoError Msg :=
  match res with
  | .error fErr => .error fErr
  | .ok mm =>
      if mm.rcode = rcodeServerFailure ∨ mm.rcode = rcodeRefused then
        .error (.str "server failure")
      else
        .ok mm

/-- Modelled from the spec: `picker.Wait` (package `common/picker`, not in
`src/`) returns the value of the first attempt, in wall-clock completion
order, that finished without an error, or `none` when every attempt
failed ("the first attempt to return a message ... wins"; "whichever
attempt completes first, by wall-clock completion, wins"). -/
def pickerWait (results : List (Except GoError Msg)) : Option Msg :=
  results.findSome? (fun r => r.toOption)

/-- The error component of an attempt outcome, if any. -/
def exceptError (r : Except GoError Msg) : Option GoError :=
  match r with
  | .error e => some e
  | .ok _ => none

/-- Modelled from the spec: `picker.Error` (package `common/picker`, not
in `src/`) aggregates the individual attempt failures into one joined
error ("the joined set of individual failures"), or `none` when no
attempt failed. -/
def pickerError (results : List (Except GoError Msg)) : Option GoError :=
  match results.filterMap exceptError with
  | [] => none
  | e :: es => some (es.foldl (fun acc x => GoError.joined acc x) e)

/-- Modelled from the spec: `errors2.Cause` (package `common/errors2`,
not in `src/`) returns the aggregated race error unchanged — the spec
promises the caller "a single aggregated error combining a generic
marker with the joined set of individual failures". -/
def errorsCause (e : GoError) : GoError := e

/-- `batchExchange(ctx, clients, m)` (`dns/util.go:234`), over the
completion-ordered outcomes of the per-client exchange attempts: wrap
each attempt with the rcode filter, take the first success via the
picker, and otherwise join the `"all DNS requests failed"` marker with
the picker's aggregated error (`errors.Join(err, fErr)`). -/
def batchExchange (attempts : List Attempt) : Except GoError Msg :=
  let wrapped := attempts.map raceAttempt
  match pickerWait wrapped with
  | some elm => .ok elm
  | none =>
      let err := GoError.str "all DNS requests failed"
      match pickerError wrapped with
      | some fErr => .error (errorsCause (.joined err fErr))
      | none => .error (errorsCause err)

/-- An attempt outcome is non-winning: it is a transport error, or its
message's return code is SERVER-FAILURE or REFUSED. -/
def nonWinning (res : Attempt) : Prop :=
  match res with
  | .error _ => True
  | .ok mm => mm.rcode = rcodeServerFailure ∨ mm.rcode = rcodeRefused

instance (res : Attempt) : Decidable (nonWinning res) :=
  match res with
  | .error _ => isTrue trivial
  | .ok mm => inferInstanceAs (Decidable (mm.rcode = rcodeServerFailure ∨ mm.rcode = rcodeRefused))

/-- The individual failure a non-winning attempt contributes to the
aggregate: its transport error, or the `"server failure"` error minted
for a rejected return code. -/
def attemptFailure (res : Attempt) : GoError :=
  match res with
  | .error e => e
  | .ok _ => .str "server failure"

/-- `C.TCP` / `C.UDP`, the metadata network type. -/
inductive NetworkType where
  | tcp
  | udp
deriving DecidableEq, Repr

/-- The slice of `C.Metadata` this dialer fills in (`dns/util.go:198`). -/
structure Metadata where
  network : NetworkType
  host : String
  dstIP : String
  dstPort : String
deriving DecidableEq, Repr

/-- A live connection, as returned by the dialer: either a connection
produced by the external dialer/proxy (identified opaquely), or the
`wrapPacketConn` wrapper around a packet channel pre-bound to the
resolved remote address. -/
inductive Conn where
  | raw (id : Nat)
  | wrapPacketConn (packetConn : Nat) (rAddr : String)
deriving DecidableEq, Repr

/-- The `dialer.Option` values this file passes to the low-level dialer. -/
inductive DialerOption where
  | withInterface (name : String)
  | withRoutingMark (mark : Nat)
deriving DecidableEq, Repr

/-- A proxy adapter handle as the external registry exposes it:
`Name()`, `SupportUDP()`, `DialContext` and `ListenPacketContext` (the
two dial capabilities are oracle functions of the metadata). -/
structure ProxyHandle where
  name : String
  supportUDP : Bool
  dialContext : Metadata → Except GoError Nat
  listenPacketContext : Metadata → Except GoError Nat

/-- The external collaborators of `dialContextByProxyOrInterface`: the
proxy registry (`tunnel.FindProxyByName`), the process-wide
`tunnel.UDPFallbackMatch` flag, and the low-level dialer
(`dialer.DialContext`), all oracles. -/
structure DialEnv where
  findProxyByName : String → Option ProxyHandle
  udpFallbackMatch : Bool
  dialerDialContext : String → String → List DialerOption → Except GoError Nat

/-- `net.JoinHostPort`. -/
def joinHostPort (host port : String) : String :=
  host ++ ":" ++ port

/-- `metadata.UDPAddr()`: the resolved remote address of the metadata. -/
def Metadata.udpAddr (m : Metadata) : String :=
  joinHostPort m.dstIP m.dstPort

/-- `dialContextByProxyOrInterface(ctx, network, dstIP, port, proxyOrInterface)`
(`dns/util.go:175`).  The selector is looked up in the proxy registry;
a miss falls back to a direct dial bound to the selector as an
interface with routing mark 0, wrapping a failure as
`"proxy %s not found, %w"`.  For a UDP dial through a proxy without UDP
support the strict-fallback flag either fails the dial with
`"proxy %s UDP is not supported"` or downgrades the metadata to TCP and
jumps to the TCP dial (`goto tcp`).  Otherwise UDP opens a packet
channel wrapped into `wrapPacketConn`, and TCP dials a stream. -/
def dialContextByProxyOrInterface (env : DialEnv) (network : String)
    (dstIP port proxyOrInterface : String) : Except GoError Conn :=
  match env.findProxyByName proxyOrInterface with
  | none =>
      let opts := [DialerOption.withInterface proxyOrInterface, DialerOption.withRoutingMark 0]
      match env.dialerDialContext network (joinHostPort dstIP port) opts with
      | .ok conn => .ok (.raw conn)
      | .error err =>
          .error (.wrap ("proxy " ++ proxyOrInterface ++ " not found") err)
  | some proxy =>
      let networkType := if network = "udp" then NetworkType.udp else NetworkType.tcp
      let metadata : Metadata :=
        { network := networkType, host := "", dstIP := dstIP, dstPort := port }
      if networkType = NetworkType.udp then
        if !proxy.supportUDP then
          if env.udpFallbackMatch then
            .error (.str ("proxy " ++ proxy.name ++ " UDP is not supported"))
          else
            match proxy.dialContext { metadata with network := NetworkType.tcp } with
            | .ok conn => .ok (.raw conn)
            | .error err => .error err
        else
          match proxy.listenPacketContext metadata with
          | .ok packetConn => .ok (.wrapPacketConn packetConn metadata.udpAddr)
          | .error err => .error err
      else
        match proxy.dialContext metadata with
        | .ok conn => .ok (.raw conn)
        | .error err => .error err

/-- A heap of DNS messages: Go pointers `*D.Msg` are addresses into
`store`; `next` is the next fresh address. -/
structure Heap where
  store : Nat → Msg
  next : Nat

/-- Allocate a fresh message (what `msg.Copy()` does: a deep copy living
at a new address). -/
def Heap.alloc (h : Heap) (m : Msg) : Heap × Nat :=
  ({ store := fun a => if a = h.next then m else h.store a, next := h.next + 1 }, h.next)

/-- Overwrite the message at address `a` (a caller mutating its own
message in place). -/
def Heap.write (h : Heap) (a : Nat) (m : Msg) : Heap :=
  { h with store := fun x => if x = a then m else h.store x }

/-- One cache slot: the address of the stored (copied) message and its
absolute expiry timestamp (seconds). -/
structure CacheEntry where
  addr : Nat
  expire : Nat
deriving DecidableEq, Repr

/-- Modelled from the spec: the external `cache.LruCache` (package
`common/cache`, not in `src/`) as an expiry-aware key→entry store.
Capacity-based LRU eviction is not exercised by the claims and is left
out. -/
structure LruCache where
  entries : List (String × CacheEntry)

/-- Modelled from the spec: `LruCache.SetWithExpire(key, value, expire)`
stores the value under the key with the given absolute expiry,
replacing any previous entry for that key (last-writer-wins). -/
def LruCache.setWithExpire (c : LruCache) (key : String) (e : CacheEntry) : LruCache :=
  ⟨(key, e) :: c.entries.filter (fun kv => kv.1 ≠ key)⟩

/-- Modelled from the spec: the cache lookup returns a live
(non-expired) entry for the key, or nothing. -/
def LruCache.get (c : LruCache) (key : String) (now : Nat) : Option CacheEntry :=
  match c.entries.find? (fun kv => kv.1 = key) with
  | some (_, e) => if now < e.expire then some e else none
  | none => none

/-- `putMsgToCacheWithExpire(c, key, msg, ttl)` (`dns/util.go:33`): a
zero `ttl` is replaced by `minTTL(msg.Answer)`; if that is still zero
nothing is stored; otherwise `msg.Copy()` is stored with expiry
`now + ttl` seconds.  The heap models the copy: a fresh address is
allocated for the stored message. -/
def putMsgToCacheWithExpire (h : Heap) (c : LruCache) (key : String) (msgAddr : Nat)
    (now ttl : Nat) : Heap × LruCache :=
  let ttl' := if ttl = 0 then minTTL (h.store msgAddr).answer else ttl
  if ttl = 0 ∧ ttl' = 0 then (h, c)
  else
    let (h', a) := h.alloc (h.store msgAddr)
    (h', c.setWithExpire key ⟨a, now + ttl'⟩)

/-- `putMsgToCache(c, key, msg)` (`dns/util.go:29`). -/
def putMsgToCache (h : Heap) (c : LruCache) (key : String) (msgAddr : Nat)
    (now : Nat) : Heap × LruCache :=
  putMsgToCacheWithExpire h c key msgAddr now 0

/-! ### Helper lemmas about `minTTL` -/

lemma foldl_pick_mem (rs : List RR) (acc : RR) :
    rs.foldl (fun acc x => if x.ttl < acc.ttl then x else acc) acc = acc ∨
      rs.foldl (fun acc x => if x.ttl < acc.ttl then x else acc) acc ∈ rs := by
  induction rs generalizing acc with
  | nil => exact Or.inl rfl
  | cons a as ih =>
    simp only [List.foldl_cons]
    rcases ih (if a.ttl < acc.ttl then a else acc) with h | h
    · rw [h]
      split
      · exact Or.inr (List.mem_cons_self a as)
      · exact Or.inl rfl
    · exact Or.inr (List.mem_cons_of_mem a h)

lemma foldl_pick_le_acc (rs : List RR) (acc : RR) :
    (rs.foldl (fun acc x => if x.ttl < acc.ttl then x else acc) acc).ttl ≤ acc.ttl := by
  induction rs generalizing acc with
  | nil => exact Nat.le_refl _
  | cons a as ih =>
    simp only [List.foldl_cons]
    refine Nat.le_trans (ih _) ?_
    split <;> omega

lemma foldl_pick_le_mem (rs : List RR) (acc : RR) (r : RR) (hr : r ∈ rs) :
    (rs.foldl (fun acc x => if x.ttl < acc.ttl then x else acc) acc).ttl ≤ r.ttl := by
  induction rs generalizing acc with
  | nil => cases hr
  | cons a as ih =>
    simp only [List.foldl_cons]
    rcases List.mem_cons.mp hr with h | h
    · subst h
      refine Nat.le_trans (foldl_pick_le_acc as _) ?_
      split <;> omega
    · exact ih _ h

/-- `minTTL` is a lower bound of the record TTLs. -/
lemma minTTL_le_of_mem (rs : List RR) (r : RR) (hr : r ∈ rs) :
    minTTL rs ≤ r.ttl := by
  cases rs with
  | nil => cases hr
  | cons r0 rest =>
    rcases List.mem_cons.mp hr with h | h
    · subst h; exact foldl_pick_le_acc rest r
    · exact foldl_pick_le_mem rest r0 r h

/-- `minTTL` of a non-empty list is attained at some record. -/
lemma minTTL_mem (rs : List RR) (hne : rs ≠ []) :
    ∃ r ∈ rs, minTTL rs = r.ttl := by
  cases rs with
  | nil => exact absurd rfl hne
  | cons r0 rest =>
    rcases foldl_pick_mem rest r0 with h | h
    · exact ⟨r0, List.mem_cons_self r0 rest, by simp [minTTL, h]⟩
    · exact ⟨_, List.mem_cons_of_mem r0 h, rfl⟩

/-! ### Helper lemmas about strings -/

lemma string_eq_of_data_eq (a b : String) (h : a.data = b.data) : a = b := by
  cases a; cases b; exact congrArg String.mk h

lemma string_append_right_cancel (p1 p2 s : String) (h : p1 ++ s = p2 ++ s) :
    p1 = p2 := by
  apply string_eq_of_data_eq
  have hd : p1.data ++ s.data = p2.data ++ s.data := by
    rw [← String.data_append, ← String.data_append, h]
  exact List.append_cancel_right hd

lemma string_ne_empty_length_pos (p : String) (h : p ≠ "") : 0 < p.length := by
  by_contra hc
  have h0 : p.length = 0 := by omega
  apply h
  cases p with
  | mk d =>
    simp only [String.length] at h0
    have : d = [] := List.length_eq_zero.mp h0
    simp [this]

/-- `clamp` with a feasible range lands inside the range. -/
lemma clamp_mem (value lo hi : Nat) (h : lo ≤ hi) :
    lo ≤ clamp value lo hi ∧ clamp value lo hi ≤ hi := by
  unfold clamp
  split
  · omega
  · split <;> omega

/-- The decaying delta: under the `uint32` side conditions and `t` below
the minimum, `(minTTL rs + u32 - t % u32) % u32 = minTTL rs - t`. -/
lemma decay_delta_eq (rs : List RR) (t : Nat) (ht : t < u32)
    (hm : minTTL rs < u32) (htm : t ≤ minTTL rs) :
    (minTTL rs + u32 - t % u32) % u32 = minTTL rs - t := by
  rw [Nat.mod_eq_of_lt ht]
  have h1 : minTTL rs + u32 - t = (minTTL rs - t) + u32 := by omega
  rw [h1, Nat.add_mod_right, Nat.mod_eq_of_lt (by omega)]

/-! ### Theorems -/

/-- **C9.** `minTTL` applied to an empty record list returns the
sentinel value `0` ("none"); on a single-record list it returns that
record's TTL; in general it returns the smallest TTL among the records
(a lower bound that is attained). -/
theorem minTTL_spec :
    minTTL [] = 0 ∧
    (∀ r : RR, minTTL [r] = r.ttl) ∧
    (∀ rs : List RR, ∀ r ∈ rs, minTTL rs ≤ r.ttl) ∧
    (∀ rs : List RR, rs ≠ [] → ∃ r ∈ rs, minTTL rs = r.ttl) := by
  refine ⟨rfl, fun r => rfl, ?_, ?_⟩
  · exact fun rs r hr => minTTL_le_of_mem rs r hr
  · exact fun rs hne => minTTL_mem rs hne

/-- **C9 witness.** `minTTL_spec` evaluated on the concrete list
`[⟨4,"x"⟩, ⟨2,"y"⟩]` and the member `⟨4,"x"⟩`. -/
theorem minTTL_spec_witness :
    minTTL [⟨4, "x"⟩, ⟨2, "y"⟩] ≤ RR.ttl ⟨4, "x"⟩ :=
  minTTL_spec.2.2.1 [⟨4, "x"⟩, ⟨2, "y"⟩] ⟨4, "x"⟩ (by simp)

/-- **C3 counterexample.** On the single record of TTL `5` and target
`t = 0` we have `t <` the original minimum, yet the decayed minimum TTL
is `1`, not `t`: the lower clamp bound of `1` overrides the requested
target, refuting the claim as stated. -/
theorem setTTL_decay_counterexample :
    0 < minTTL [⟨5, "a"⟩] ∧
    minTTL (setTTL [⟨5, "a"⟩] 0 false) = 1 ∧ (1 : Nat) ≠ 0 := by
  refine ⟨by decide, ?_, by decide⟩
  have : setTTL [⟨5, "a"⟩] 0 false = [⟨1, "a"⟩] := by
    simp only [setTTL, minTTL, u32, clamp]
    norm_num
  rw [this]
  rfl

/-- **C3 (amended).** For a non-empty record list whose TTLs are `uint32`
values at least `1`, and a target `1 ≤ t < 2^32`, the decaying rewrite
`setTTL records t false` (the `force=false` path used by `setMsgMaxTTL`)
keeps the list length, makes the minimum TTL exactly `t` whenever
`t` is below the original minimum, and puts every rewritten TTL in
`[1, original TTL]` — in particular no record's TTL increases. -/
theorem setTTL_decay_spec (records : List RR) (t : Nat)
    (hne : records ≠ []) (ht : t < u32) (ht1 : 1 ≤ t)
    (hrec : ∀ r ∈ records, 1 ≤ r.ttl ∧ r.ttl < u32) :
    (setTTL records t false).length = records.length ∧
    (t < minTTL records → minTTL (setTTL records t false) = t) ∧
    (∀ i (hi : i < records.length) (ho : i < (setTTL records t false).length),
       1 ≤ ((setTTL records t false)[i]).ttl ∧
       ((setTTL records t false)[i]).ttl ≤ (records[i]).ttl) := by
  have hset : setTTL records t false =
      records.map (fun r =>
        { r with ttl := clamp ((r.ttl + u32 - (minTTL records + u32 - t % u32) % u32) % u32)
                            1 r.ttl }) := by
    simp [setTTL]
  refine ⟨by rw [hset]; exact List.length_map _ _, ?_, ?_⟩
  · intro htm
    have hm : minTTL records < u32 := by
      obtain ⟨r, hr, hmr⟩ := minTTL_mem records hne
      have := (hrec r hr).2
      omega
    have hdelta := decay_delta_eq records t ht hm (Nat.le_of_lt htm)
    -- every rewritten TTL under `t < minTTL` equals `orig - (min - t)`
    have helt : ∀ r ∈ records,
        clamp ((r.ttl + u32 - (minTTL records + u32 - t % u32) % u32) % u32) 1 r.ttl
          = r.ttl - (minTTL records - t) := by
      intro r hr
      have hle : minTTL records ≤ r.ttl := minTTL_le_of_mem records r hr
      have hru : r.ttl < u32 := (hrec r hr).2
      rw [hdelta]
      have h1 : r.ttl + u32 - (minTTL records - t) = (r.ttl - (minTTL records - t)) + u32 := by
        omega
      rw [h1, Nat.add_mod_right, Nat.mod_eq_of_lt (by omega)]
      unfold clamp
      have : ¬ (r.ttl - (minTTL records - t) < 1) := by omega
      rw [if_neg this, if_neg (by omega)]
    -- the rewritten list is non-empty, so its minimum is attained
    have houtne : setTTL records t false ≠ [] := by
      rw [hset]
      intro hc
      exact hne (List.map_eq_nil_iff.mp hc)
    refine Nat.le_antisymm ?_ ?_
    · -- minimum of output ≤ t : the record attaining the old minimum maps to t
      obtain ⟨rmin, hrmin, hmeq⟩ := minTTL_mem records hne
      have hmem : (⟨t, rmin.rdata⟩ : RR) ∈ setTTL records t false := by
        rw [hset]
        refine List.mem_map.mpr ⟨rmin, hrmin, ?_⟩
        dsimp only
        have hc := helt rmin hrmin
        rw [hc, ← hmeq]
        have hsub : minTTL records - (minTTL records - t) = t := by omega
        simp [hsub]
      have := minTTL_le_of_mem _ _ hmem
      simpa using this
    · -- t ≤ minimum of output : every rewritten TTL is at least t
      obtain ⟨r', hr', heq'⟩ := minTTL_mem _ houtne
      rw [heq']
      rw [hset] at hr'
      obtain ⟨r, hr, hmap⟩ := List.mem_map.mp hr'
      have hle : minTTL records ≤ r.ttl := minTTL_le_of_mem records r hr
      have hval : r'.ttl = r.ttl - (minTTL records - t) := by
        rw [← hmap]
        simpa using helt r hr
      rw [hval]
      omega
  · intro i hi ho
    have hmap : (setTTL records t false)[i] =
        { records[i] with
          ttl := clamp (((records[i]).ttl + u32 -
                   (minTTL records + u32 - t % u32) % u32) % u32)
                 1 (records[i]).ttl } := by
      simp only [hset, List.getElem_map]
    rw [hmap]
    have h1 : 1 ≤ (records[i]).ttl :=
      (hrec _ (List.getElem_mem hi)).1
    exact clamp_mem _ 1 _ h1

/-- **C3 amended witness.** `setTTL_decay_spec` evaluated on the records
`[⟨5,"a"⟩, ⟨7,"b"⟩]` with target `3`: length preserved, minimum becomes
`3`, and the TTL of index `1` stays within `[1, 7]`. -/
theorem setTTL_decay_spec_witness :
    (setTTL [⟨5, "a"⟩, ⟨7, "b"⟩] 3 false).length = 2 ∧
    minTTL (setTTL [⟨5, "a"⟩, ⟨7, "b"⟩] 3 false) = 3 := by
  have h := setTTL_decay_spec [⟨5, "a"⟩, ⟨7, "b"⟩] 3 (by decide)
    (by decide) (by decide) (by decide)
  exact ⟨h.1, h.2.1 (by decide)⟩

lemma genMsgCacheKey_some_of_ne (p : String) (q : Question) (h : p ≠ "") :
    genMsgCacheKey (some p) q = p ++ (":" ++ specNoProxyKeyForm q) := by
  simp [genMsgCacheKey, specNoProxyKeyForm, h, String.append_assoc]

lemma genMsgCacheKey_some_empty (q : Question) :
    genMsgCacheKey (some "") q = specNoProxyKeyForm q := by
  simp [genMsgCacheKey, specNoProxyKeyForm]

lemma colon_length : (":" : String).length = 1 := rfl

/-- **C10.** A selected proxy whose name is the empty string derives the
same cache key as an absent proxy selector: the no-proxy form, so the
two share cache entries. -/
theorem genMsgCacheKey_empty_eq_none (q : Question) :
    genMsgCacheKey (some "") q = genMsgCacheKey none q ∧
    genMsgCacheKey none q = specNoProxyKeyForm q := by
  constructor
  · simp [genMsgCacheKey]
  · rfl

/-- **C6 counterexample.** The claim asserts the proxy-form key
`"<proxy>:<name>:<qtype>:<qclass>"` whenever a proxy selector is present
in the context; with the present-but-empty proxy `""` and the question
`(example.com., 1, 1)` the derived key is the no-proxy form, which
differs from the claimed proxy form. -/
theorem genMsgCacheKey_counterexample :
    genMsgCacheKey (some "") ⟨"example.com.", 1, 1⟩ ≠
      specProxyKeyForm "" ⟨"example.com.", 1, 1⟩ := by
  decide

/-- **C6 (amended).** Cache-key derivation is a deterministic function
of the selected proxy and question; when the selected proxy is present
and **non-empty** the key is `"<proxy>:<name>:<qtype>:<qclass>"`, and
when it is absent (or empty) the key is `"<name>:<qtype>:<qclass>"`;
for every question, two different selected proxies yield different
keys. -/
theorem genMsgCacheKey_spec (q : Question) :
    (∀ p : String, p ≠ "" → genMsgCacheKey (some p) q = specProxyKeyForm p q) ∧
    genMsgCacheKey none q = specNoProxyKeyForm q ∧
    genMsgCacheKey (some "") q = specNoProxyKeyForm q ∧
    (∀ p1 p2 : String, p1 ≠ p2 →
       genMsgCacheKey (some p1) q ≠ genMsgCacheKey (some p2) q) := by
  refine ⟨?_, rfl, genMsgCacheKey_some_empty q, ?_⟩
  · intro p hp
    simp [genMsgCacheKey, specProxyKeyForm, hp]
  · intro p1 p2 hne heq
    by_cases h1 : p1 = "" <;> by_cases h2 : p2 = ""
    · exact hne (h1.trans h2.symm)
    · rw [h1, genMsgCacheKey_some_empty, genMsgCacheKey_some_of_ne p2 q h2] at heq
      have hlen := congrArg String.length heq
      simp only [String.length_append, colon_length] at hlen
      have hp2 := string_ne_empty_length_pos p2 h2
      omega
    · rw [h2, genMsgCacheKey_some_empty, genMsgCacheKey_some_of_ne p1 q h1] at heq
      have hlen := congrArg String.length heq
      simp only [String.length_append, colon_length] at hlen
      have hp1 := string_ne_empty_length_pos p1 h1
      omega
    · rw [genMsgCacheKey_some_of_ne p1 q h1, genMsgCacheKey_some_of_ne p2 q h2] at heq
      exact hne (string_append_right_cancel p1 p2 _ heq)

/-- **C6 amended witness.** `genMsgCacheKey_spec` at the question
`(example.com., 1, 1)`: the distinct proxies `"p1"` and `"p2"` yield
distinct keys. -/
theorem genMsgCacheKey_spec_witness :
    genMsgCacheKey (some "p1") ⟨"example.com.", 1, 1⟩ ≠
      genMsgCacheKey (some "p2") ⟨"example.com.", 1, 1⟩ :=
  (genMsgCacheKey_spec ⟨"example.com.", 1, 1⟩).2.2.2 "p1" "p2" (by decide)

lemma raceAttempt_of_nonWinning (r : Attempt) (h : nonWinning r) :
    raceAttempt r = .error (attemptFailure r) := by
  cases r with
  | error e => rfl
  | ok mm =>
    have h' : mm.rcode = rcodeServerFailure ∨ mm.rcode = rcodeRefused := h
    simp only [raceAttempt, attemptFailure]
    rw [if_pos h']

lemma raceAttempt_of_winner (m : Msg) (h1 : m.rcode ≠ rcodeServerFailure)
    (h2 : m.rcode ≠ rcodeRefused) : raceAttempt (.ok m) = .ok m := by
  simp only [raceAttempt]
  rw [if_neg]
  push_neg
  exact ⟨h1, h2⟩

lemma pickerWait_all_error (l : List (Except GoError Msg))
    (h : ∀ x ∈ l, ∃ e, x = .error e) : pickerWait l = none := by
  induction l with
  | nil => rfl
  | cons a as ih =>
    obtain ⟨e, he⟩ := h a (List.mem_cons_self a as)
    subst he
    simp only [pickerWait, List.findSome?_cons]
    exact ih (fun x hx => h x (List.mem_cons_of_mem _ hx))

lemma pickerWait_append_winner (pre post : List (Except GoError Msg)) (m : Msg)
    (h : ∀ x ∈ pre, ∃ e, x = .error e) :
    pickerWait (pre ++ .ok m :: post) = some m := by
  induction pre with
  | nil => rfl
  | cons a as ih =>
    obtain ⟨e, he⟩ := h a (List.mem_cons_self a as)
    subst he
    simp only [pickerWait, List.cons_append, List.findSome?_cons]
    exact ih (fun x hx => h x (List.mem_cons_of_mem _ hx))

/-- **C1.** The race selects as winner the first attempt (in completion
order) whose message has a return code that is neither SERVER-FAILURE
nor REFUSED: for any prefix of non-winning attempts (transport errors or
messages with one of those two codes) and any suffix, `batchExchange`
returns exactly the first winning message. -/
theorem batchExchange_first_winner (pre post : List Attempt) (m : Msg)
    (hpre : ∀ r ∈ pre, nonWinning r)
    (h1 : m.rcode ≠ rcodeServerFailure) (h2 : m.rcode ≠ rcodeRefused) :
    batchExchange (pre ++ Except.ok m :: post) = .ok m := by
  have hwait : pickerWait ((pre ++ Except.ok m :: post).map raceAttempt) = some m := by
    rw [List.map_append, List.map_cons, raceAttempt_of_winner m h1 h2]
    apply pickerWait_append_winner
    intro x hx
    obtain ⟨r, hr, hrx⟩ := List.mem_map.mp hx
    exact ⟨attemptFailure r, hrx ▸ raceAttempt_of_nonWinning r (hpre r hr)⟩
  simp only [batchExchange, hwait]

/-- **C1 witness.** `batchExchange_first_winner` on the four concrete
attempts: a transport error, then a REFUSED message, then the winning
SUCCESS message, then a straggler. -/
theorem batchExchange_first_winner_witness :
    batchExchange [Except.error (.str "e1"), Except.ok ⟨5, [], [], []⟩,
      Except.ok ⟨0, [⟨5, "a"⟩], [], []⟩, Except.ok ⟨0, [⟨9, "b"⟩], [], []⟩] =
      .ok ⟨0, [⟨5, "a"⟩], [], []⟩ :=
  batchExchange_first_winner
    [Except.error (.str "e1"), Except.ok ⟨5, [], [], []⟩]
    [Except.ok ⟨0, [⟨9, "b"⟩], [], []⟩]
    ⟨0, [⟨5, "a"⟩], [], []⟩ (by decide) (by decide) (by decide)

lemma mentions_refl (e : GoError) : e.mentions e = true := by
  cases e <;> simp [GoError.mentions]

lemma mentions_joined_left (a b x : GoError) (h : a.mentions x = true) :
    (GoError.joined a b).mentions x = true := by
  simp [GoError.mentions, h]

lemma mentions_joined_right (a b x : GoError) (h : b.mentions x = true) :
    (GoError.joined a b).mentions x = true := by
  simp [GoError.mentions, h]

lemma mentions_foldl_of_mentions (es : List GoError) (e0 x : GoError)
    (h : e0.mentions x = true) :
    (es.foldl GoError.joined e0).mentions x = true := by
  induction es generalizing e0 with
  | nil => exact h
  | cons b bs ih => exact ih _ (mentions_joined_left e0 b x h)

lemma mentions_foldl_of_mem (es : List GoError) (e0 x : GoError)
    (hx : x = e0 ∨ x ∈ es) :
    (es.foldl GoError.joined e0).mentions x = true := by
  induction es generalizing e0 with
  | nil =>
    rcases hx with h | h
    · subst h; exact mentions_refl x
    · cases h
  | cons b bs ih =>
    rcases hx with h | h
    · subst h
      exact mentions_foldl_of_mentions bs _ x (mentions_joined_left x b x (mentions_refl x))
    · rcases List.mem_cons.mp h with h | h
      · subst h
        exact mentions_foldl_of_mentions bs _ x (mentions_joined_right e0 x x (mentions_refl x))
      · exact ih _ (Or.inr h)

lemma filterMap_error_map (l : List Attempt) :
    ((l.map (fun r => Except.error (attemptFailure r))).filterMap exceptError)
      = l.map attemptFailure := by
  induction l with
  | nil => rfl
  | cons a as ih => simp [exceptError, ih]

/-- **C2.** When every attempt fails — a transport error or a message
whose return code is SERVER-FAILURE or REFUSED — `batchExchange` returns
no message, and its single aggregated error mentions the
`"all DNS requests failed"` marker as well as every individual attempt
failure. -/
theorem batchExchange_all_fail (attempts : List Attempt)
    (h : ∀ r ∈ attempts, nonWinning r) :
    ∃ e, batchExchange attempts = .error e ∧
      e.mentions (.str "all DNS requests failed") = true ∧
      ∀ r ∈ attempts, e.mentions (attemptFailure r) = true := by
  have hmap : attempts.map raceAttempt
      = attempts.map (fun r => Except.error (attemptFailure r)) :=
    List.map_congr_left (fun r hr => raceAttempt_of_nonWinning r (h r hr))
  have hwait : pickerWait (attempts.map raceAttempt) = none := by
    rw [hmap]
    exact pickerWait_all_error _ (fun x hx => by
      obtain ⟨r, _, hrx⟩ := List.mem_map.mp hx
      exact ⟨attemptFailure r, hrx.symm⟩)
  have herr : pickerError (attempts.map raceAttempt)
      = match attempts.map attemptFailure with
        | [] => none
        | e :: es => some (es.foldl GoError.joined e) := by
    rw [hmap]
    simp only [pickerError, filterMap_error_map]
  cases hattempts : attempts.map attemptFailure with
  | nil =>
    have hnil : attempts = [] := List.map_eq_nil_iff.mp hattempts
    subst hnil
    exact ⟨.str "all DNS requests failed", rfl, mentions_refl _, by simp⟩
  | cons f fs =>
    refine ⟨.joined (.str "all DNS requests failed") (fs.foldl GoError.joined f),
      ?_, ?_, ?_⟩
    · simp only [batchExchange, hwait, herr, hattempts, errorsCause]
    · exact mentions_joined_left _ _ _ (mentions_refl _)
    · intro r hr
      apply mentions_joined_right
      apply mentions_foldl_of_mem
      have : attemptFailure r ∈ attempts.map attemptFailure :=
        List.mem_map.mpr ⟨r, hr, rfl⟩
      rw [hattempts] at this
      rcases List.mem_cons.mp this with hh | hh
      · exact Or.inl hh
      · exact Or.inr hh

/-- **C2 witness.** `batchExchange_all_fail` on two concrete failing
attempts: a transport error and a SERVER-FAILURE message. -/
theorem batchExchange_all_fail_witness :
    ∃ e, batchExchange [Except.error (.str "e1"), Except.ok ⟨2, [], [], []⟩] = .error e ∧
      e.mentions (.str "all DNS requests failed") = true ∧
      ∀ r ∈ [Except.error (GoError.str "e1"), Except.ok (⟨2, [], [], []⟩ : Msg)],
        e.mentions (attemptFailure r) = true :=
  batchExchange_all_fail
    [Except.error (.str "e1"), Except.ok ⟨2, [], [], []⟩] (by decide)

/-- **C7.** A UDP dial through a registry proxy that declares no UDP
support: under the strict "UDP fallback must match" flag the dialer
fails with the `"UDP is not supported"` error for every possible dial
oracle (no other dial determines the result); with the flag off the
result is exactly the proxy's TCP dial to the same destination. -/
theorem dial_udp_unsupported_spec (env : DialEnv) (dstIP port sel : String)
    (proxy : ProxyHandle) (hfind : env.findProxyByName sel = some proxy)
    (hudp : proxy.supportUDP = false) :
    (env.udpFallbackMatch = true →
       dialContextByProxyOrInterface env "udp" dstIP port sel =
         .error (.str ("proxy " ++ proxy.name ++ " UDP is not supported"))) ∧
    (env.udpFallbackMatch = false →
       dialContextByProxyOrInterface env "udp" dstIP port sel =
         match proxy.dialContext
             { network := .tcp, host := "", dstIP := dstIP, dstPort := port } with
         | .ok conn => .ok (.raw conn)
         | .error err => .error err) := by
  constructor <;> intro hflag <;>
    simp [dialContextByProxyOrInterface, hfind, hudp, hflag]

/-- A proxy without UDP support, with fixed dial oracles. -/
def proxyNoUdp : ProxyHandle :=
  { name := "p"
    supportUDP := false
    dialContext := fun _ => .ok 7
    listenPacketContext := fun _ => .ok 9 }

/-- A registry knowing only `proxyNoUdp`, with the strict fallback flag. -/
def envStrict : DialEnv :=
  { findProxyByName := fun s => if s = "p" then some proxyNoUdp else none
    udpFallbackMatch := true
    dialerDialContext := fun _ _ _ => .ok 3 }

/-- **C7 witness.** `dial_udp_unsupported_spec` on the concrete strict
environment: the UDP dial through `"p"` fails with the
`"UDP is not supported"` error. -/
theorem dial_udp_unsupported_witness :
    dialContextByProxyOrInterface envStrict "udp" "1.2.3.4" "53" "p" =
      .error (.str "proxy p UDP is not supported") :=
  (dial_udp_unsupported_spec envStrict "1.2.3.4" "53" "p" proxyNoUdp rfl rfl).1 rfl

/-- **C8.** When the selector is not found in the proxy registry the
dialer performs a direct dial bound to the selector as a local
interface with routing mark `0`: a successful direct dial's connection
is returned, and a failing one yields an error wrapping the underlying
dial error under the message `"proxy <selector> not found"`. -/
theorem dial_selector_not_found_spec (env : DialEnv) (network dstIP port sel : String)
    (hfind : env.findProxyByName sel = none) :
    (∀ conn, env.dialerDialContext network (joinHostPort dstIP port)
        [DialerOption.withInterface sel, DialerOption.withRoutingMark 0] = .ok conn →
       dialContextByProxyOrInterface env network dstIP port sel = .ok (.raw conn)) ∧
    (∀ e, env.dialerDialContext network (joinHostPort dstIP port)
        [DialerOption.withInterface sel, DialerOption.withRoutingMark 0] = .error e →
       dialContextByProxyOrInterface env network dstIP port sel =
         .error (.wrap ("proxy " ++ sel ++ " not found") e)) := by
  constructor <;> intro x hx <;>
    simp [dialContextByProxyOrInterface, hfind, hx]

/-- An empty registry whose low-level dialer always fails. -/
def envNoProxy : DialEnv :=
  { findProxyByName := fun _ => none
    udpFallbackMatch := false
    dialerDialContext := fun _ _ _ => .error (.str "io timeout") }

/-- **C8 witness.** `dial_selector_not_found_spec` on the concrete empty
registry: dialing via the unknown selector `"eth0"` yields the
`"proxy eth0 not found"` error wrapping the dial failure. -/
theorem dial_selector_not_found_witness :
    dialContextByProxyOrInterface envNoProxy "tcp" "1.2.3.4" "53" "eth0" =
      .error (.wrap "proxy eth0 not found" (.str "io timeout")) :=
  (dial_selector_not_found_spec envNoProxy "tcp" "1.2.3.4" "53" "eth0" rfl).2
    (.str "io timeout") rfl

/-- **C4.** `putMsgToCacheWithExpire` with `ttl = 0` computes the TTL as
`minTTL` of the message's Answer section only; if that is `0` (all-zero
TTLs or empty answer) nothing is stored — the cache is unchanged and a
`get` of the key returns what it returned before, in particular nothing
if the key was absent; otherwise a fresh deep copy of the message is
stored under the key with expiry `now + ttl`. -/
theorem putMsgToCacheWithExpire_spec (h : Heap) (c : LruCache) (key : String)
    (a now : Nat) :
    (minTTL (h.store a).answer = 0 →
       putMsgToCacheWithExpire h c key a now 0 = (h, c) ∧
       ∀ t, c.get key t = none →
         ((putMsgToCacheWithExpire h c key a now 0).2).get key t = none) ∧
    (minTTL (h.store a).answer ≠ 0 →
       putMsgToCacheWithExpire h c key a now 0 =
         ((h.alloc (h.store a)).1,
          c.setWithExpire key ⟨(h.alloc (h.store a)).2,
            now + minTTL (h.store a).answer⟩)) := by
  constructor
  · intro h0
    have heq : putMsgToCacheWithExpire h c key a now 0 = (h, c) := by
      simp [putMsgToCacheWithExpire, h0]
    exact ⟨heq, fun t ht => by rw [heq]; exact ht⟩
  · intro h0
    simp [putMsgToCacheWithExpire, h0, Heap.alloc]

/-- A message whose only answer record has TTL `0`. -/
def msgZero : Msg := ⟨0, [⟨0, "a"⟩], [], []⟩

/-- A one-address heap holding `msgZero`. -/
def heapZero : Heap := { store := fun _ => msgZero, next := 1 }

/-- The empty cache. -/
def cache0 : LruCache := ⟨[]⟩

/-- **C4 witness.** `putMsgToCacheWithExpire_spec` on the all-zero-TTL
message: the put leaves heap and cache unchanged and the subsequent
`get` returns nothing. -/
theorem putMsgToCacheWithExpire_spec_witness :
    putMsgToCacheWithExpire heapZero cache0 "k" 0 100 0 = (heapZero, cache0) ∧
    ((putMsgToCacheWithExpire heapZero cache0 "k" 0 100 0).2).get "k" 100 = none := by
  have hs := (putMsgToCacheWithExpire_spec heapZero cache0 "k" 0 100).1 (by decide)
  exact ⟨hs.1, hs.2 100 rfl⟩

/-- **C5.** For a message whose Answer section has a positive minimum
TTL, a put followed by a get (before expiry) returns the cached entry;
the stored copy equals the message at put time, and mutating the
caller's original message afterwards (`Heap.write` at its address) does
not change the cached copy. -/
theorem cache_roundtrip_isolation (h : Heap) (c : LruCache) (key : String)
    (a now : Nat) (ha : a < h.next)
    (hpos : 0 < minTTL (h.store a).answer)
    (t : Nat) (ht : t < now + minTTL (h.store a).answer) (m' : Msg) :
    ∃ entry : CacheEntry,
      ((putMsgToCacheWithExpire h c key a now 0).2).get key t = some entry ∧
      ((putMsgToCacheWithExpire h c key a now 0).1).store entry.addr = h.store a ∧
      (((putMsgToCacheWithExpire h c key a now 0).1).write a m').store entry.addr
        = h.store a := by
  have hne : minTTL (h.store a).answer ≠ 0 := by omega
  have hna : h.next ≠ a := by omega
  refine ⟨⟨h.next, now + minTTL (h.store a).answer⟩, ?_, ?_, ?_⟩
  · simp [putMsgToCacheWithExpire, hne, Heap.alloc, LruCache.setWithExpire,
      LruCache.get, ht]
  · simp [putMsgToCacheWithExpire, hne, Heap.alloc]
  · simp [putMsgToCacheWithExpire, hne, Heap.alloc, Heap.write, hna]

/-- A message with a positive-TTL answer record. -/
def msgPos : Msg := ⟨0, [⟨5, "a"⟩], [], []⟩

/-- A one-address heap holding `msgPos`. -/
def heapPos : Heap := { store := fun _ => msgPos, next := 1 }

/-- **C5 witness.** `cache_roundtrip_isolation` on the concrete heap:
put at time `100`, get at time `100`, with the caller's message
overwritten by an empty message in between. -/
theorem cache_roundtrip_isolation_witness :
    ∃ entry : CacheEntry,
      ((putMsgToCacheWithExpire heapPos cache0 "k" 0 100 0).2).get "k" 100
        = some entry ∧
      ((putMsgToCacheWithExpire heapPos cache0 "k" 0 100 0).1).store entry.addr
        = heapPos.store 0 ∧
      (((putMsgToCacheWithExpire heapPos cache0 "k" 0 100 0).1).write 0
        ⟨0, [], [], []⟩).store entry.addr = heapPos.store 0 :=
  cache_roundtrip_isolation heapPos cache0 "k" 0 100 (by decide) (by decide)
    100 (by decide) ⟨0, [], [], []⟩

end ClashDns
